import Mathlib

/-!
Verification of the `SimpleAMIClient` AMI protocol client
(`custom_components/asterisk/ami_client.py`).

Strings of the Python code are embedded as `List Char`; a Python
`dict` is embedded as an association list together with an in-place
update operation (`dictSet`) and a first-match lookup (`dictGet?`),
which reproduces the overwrite semantics of a Python dictionary.
Socket I/O is embedded as explicit environments of `Except`-valued
outcomes: `.error ()` stands for a raised exception, `.ok v` for a
successful call returning `v`.
-/

namespace AMI

/-- The CRLF line terminator of the wire protocol. -/
def crlf : List Char := ['\r', '\n']

/-- The blank-line frame terminator `"\r\n\r\n"`. -/
def frameSep : List Char := ['\r', '\n', '\r', '\n']

/-- The `": "` separator between a key and a value on one line. -/
def colonSp : List Char := [':', ' ']

/-- The literal `"Success"` the login check searches for. -/
def successChars : List Char := ['S', 'u', 'c', 'c', 'e', 's', 's']

/-- The `"Event"` key that marks a record as an event. -/
def eventKey : List Char := ['E', 'v', 'e', 'n', 't']

/-- The `"Action"` key of an outbound command line. -/
def actionKey : List Char := ['A', 'c', 't', 'i', 'o', 'n']

/-- Embedding of Python `s.split(sep, 1)` when `sep` occurs in `s`:
finds the leftmost occurrence of `sep` in `s` and returns the text
before it and the text after it; `none` when `sep` does not occur. -/
def splitFirst (sep : List Char) : List Char → Option (List Char × List Char)
  | [] => if sep.isPrefixOf ([] : List Char) then some ([], []) else none
  | c :: cs =>
    if sep.isPrefixOf (c :: cs) then some ([], (c :: cs).drop sep.length)
    else (splitFirst sep cs).map fun pr => (c :: pr.1, pr.2)

/-- Embedding of Python `sep in s` (substring occurrence test). -/
def containsSub (sep s : List Char) : Bool := (splitFirst sep s).isSome

/-! ### Frame extraction (`_read_events`, lines 132-157)

The reader loop accumulates received chunks into `buffer` and runs
`while "\r\n\r\n" in buffer: msg, buffer = buffer.split("\r\n\r\n", 1)`.
`feedAux` is that inner loop with explicit fuel; `feedAll` supplies
enough fuel (`buffer.length`), since every iteration consumes at least
the four characters of the separator. -/

def feedAux : Nat → List Char → List (List Char) × List Char
  | 0, buffer => ([], buffer)
  | fuel + 1, buffer =>
    match splitFirst frameSep buffer with
    | none => ([], buffer)
    | some (msg, rest) =>
      let r := feedAux fuel rest
      (msg :: r.1, r.2)

/-- One run of the frame-splitting loop over `buffer`: the list of
complete frames found, in order, and the unterminated remainder. -/
def feedAll (buffer : List Char) : List (List Char) × List Char :=
  feedAux buffer.length buffer

/-- `buffer += chunk` followed by the frame-splitting loop. -/
def feed (buffer chunk : List Char) : List (List Char) × List Char :=
  feedAll (buffer ++ chunk)

/-- Feeding a list of received chunks one at a time, starting from
`buffer`, collecting all complete frames in order. -/
def feedChunks : List (List Char) → List Char → List (List Char) × List Char
  | [], buffer => ([], buffer)
  | chunk :: rest, buffer =>
    let r := feed buffer chunk
    let r' := feedChunks rest r.2
    (r.1 ++ r'.1, r'.2)

/-! ### Message parsing (`_process_message`, lines 159-173) -/

/-- Unbounded splitting used by `msg.strip().split("\r\n")`, with
explicit fuel; every step consumes at least the separator. -/
def splitAllAux (sep : List Char) : Nat → List Char → List (List Char)
  | 0, s => [s]
  | fuel + 1, s =>
    match splitFirst sep s with
    | none => [s]
    | some (pre, post) => pre :: splitAllAux sep fuel post

/-- Embedding of Python `s.split("\r\n")`. -/
def splitLines (s : List Char) : List (List Char) := splitAllAux crlf s.length s

/-- The ASCII whitespace characters removed by Python `str.strip()`. -/
def isSpaceChar (c : Char) : Bool :=
  c = ' ' || c = '\t' || c = '\n' || c = '\r' || c = '\x0b' || c = '\x0c'

/-- Embedding of Python `s.strip()`. -/
def pyStrip (s : List Char) : List Char :=
  ((s.dropWhile isSpaceChar).reverse.dropWhile isSpaceChar).reverse

/-- A Python `dict` with string keys and values, as an association
list in insertion order. -/
abbrev Dict := List (List Char × List Char)

/-- Embedding of Python `d[k] = v`: replaces the value of an existing
key in place, appends a fresh key at the end. -/
def dictSet {K V : Type} [DecidableEq K] (d : List (K × V)) (k : K) (v : V) :
    List (K × V) :=
  if d.any fun p => p.1 = k then d.map fun p => if p.1 = k then (k, v) else p
  else d ++ [(k, v)]

/-- Embedding of Python `d.get(k)` / `k in d`: the value of the entry
with key `k`, if any. -/
def dictGet? {K V : Type} [DecidableEq K] (d : List (K × V)) (k : K) : Option V :=
  (d.find? fun p => p.1 = k).map fun p => p.2

/-- One iteration of the line loop of `_process_message`:
`if ": " in line: key, value = line.split(": ", 1); data[key] = value`.
A line without the separator leaves the record unchanged. -/
def addLine (d : Dict) (line : List Char) : Dict :=
  match splitFirst colonSp line with
  | none => d
  | some (k, v) => dictSet d k v

/-- The `data` dictionary built by the line loop of `_process_message`. -/
def buildRecord (lines : List (List Char)) : Dict := lines.foldl addLine []

/-- Full frame-text decode of `_process_message`:
`lines = msg.strip().split("\r\n")` followed by the line loop. -/
def parseRecord (msg : List Char) : Dict := buildRecord (splitLines (pyStrip msg))

/-- An `AMIEvent` (lines 11-25): an event name and the decoded record. -/
structure AMIEvent where
  name : List Char
  data : Dict
  deriving DecidableEq

/-- Embedding of `AMIEvent.get` / `AMIEvent.__getitem__` (lines 18-22):
`self._data.get(key, "")` — a missing field reads as the empty string. -/
def eventGet (e : AMIEvent) (k : List Char) : List Char :=
  (dictGet? e.data k).getD []

/-- What the reader loop does with one decoded record. -/
inductive ReaderAction where
  | dispatched (e : AMIEvent)
  | delivered (d : Dict)
  | dropped
  deriving DecidableEq

/-- Routing decision of `_process_message` (lines 159-173): after
`if not lines: return`, the record is dispatched when it has an
`"Event"` key; the function body ends after that `if` block, so any
record without an `"Event"` key produces no effect at all. -/
def routeMessage (msg : List Char) : ReaderAction :=
  let lines := splitLines (pyStrip msg)
  if lines.isEmpty then .dropped
  else
    let data := buildRecord lines
    match dictGet? data eventKey with
    | some n => .dispatched ⟨n, data⟩
    | none => .dropped

/-- Modelled from the spec: "routes resulting Records: Event records →
EventBus.dispatch; other records → whichever caller is currently
awaiting a response in ActionChannel" — the routing behaviour the
claim attributes to the reader loop, for comparison with
`routeMessage`. -/
def specRouteMessage (msg : List Char) : ReaderAction :=
  let data := parseRecord msg
  match dictGet? data eventKey with
  | some n => .dispatched ⟨n, data⟩
  | none => .delivered data

/-! ### Event dispatch (`_dispatch_event`, lines 175-193) -/

/-- One registered listener: a numeric identity for the callback, the
callback itself (which may raise, modelled by `Except`), the event-name
whitelist and the field filters. -/
structure Listener where
  id : Nat
  cb : AMIEvent → Except Unit Unit
  whitelist : List (List Char)
  filters : List (List Char × List Char)

/-- The match test of `_dispatch_event`:
`if whitelist and event.name not in whitelist: continue` followed by
the filter loop `if event.get(key) != value: match = False`. -/
def matchesListener (l : Listener) (e : AMIEvent) : Bool :=
  if decide (l.whitelist ≠ []) && !(l.whitelist.any fun n => n = e.name) then
    false
  else l.filters.all fun kv => eventGet e kv.1 = kv.2

/-- The listener loop of `_dispatch_event`, in an exception monad.
The `try: callback(event) / except: log` of the source catches both
outcomes of the callback and continues the loop either way; the result
collects the ids of the callbacks that were invoked, in order. -/
def dispatchLoop : List Listener → AMIEvent → Except Unit (List Nat)
  | [], _ => .ok []
  | l :: ls, e =>
    if matchesListener l e then
      match l.cb e with
      | .ok _ => (dispatchLoop ls e).map fun r => l.id :: r
      | .error _ => (dispatchLoop ls e).map fun r => l.id :: r
    else dispatchLoop ls e

/-- The matching predicate in the words of the claim: (whitelist empty
OR the event's name is in the whitelist) AND every filter key's value
in the event equals the required value exactly, where a field absent
from the event never satisfies a non-empty required value. -/
def claimMatches (l : Listener) (e : AMIEvent) : Bool :=
  (decide (l.whitelist = []) || l.whitelist.any fun n => n = e.name) &&
    (l.filters.all fun kv =>
      match dictGet? e.data kv.1 with
      | some x => decide (x = kv.2)
      | none => decide (kv.2 = []))

/-- The value of the last well-formed occurrence of key `k` among the
lines of a frame (in the words of the claim: "the value of its last
occurrence in the frame"). -/
def lastOccurrence (lines : List (List Char)) (k : List Char) :
    Option (List Char) :=
  (((lines.filterMap (splitFirst colonSp)).filter fun kv => kv.1 = k).map
    fun kv => kv.2).getLast?

/-! ### Socket conversations (`connect`, `_recv_response`, `send_action`) -/

/-- Embedding of `_recv_response` (lines 80-88): accumulate chunks into
`data` until it contains `"\r\n\r\n"`; an empty chunk breaks the loop;
a raising `recv` propagates. The chunk list is the sequence of
outcomes the socket produces; its exhaustion stands for the read
timeout, which also raises. -/
def recvResponse : List (Except Unit (List Char)) → List Char →
    Except Unit (List Char)
  | chunks, data =>
    if containsSub frameSep data then .ok data
    else
      match chunks with
      | [] => .error ()
      | .error _ :: _ => .error ()
      | .ok chunk :: rest =>
        if chunk.isEmpty then .ok data else recvResponse rest (data ++ chunk)

/-- The client flags `_connected` and `_running`. -/
structure ClientState where
  connected : Bool
  running : Bool
  deriving DecidableEq

/-- Outcomes of the socket calls made during `connect` (lines 49-78):
socket open/connect, banner `recv`, login `send`, and the chunks read
by `_recv_response` for the login reply. -/
structure ConnectEnv where
  sockConnect : Except Unit Unit
  bannerRecv : Except Unit (List Char)
  loginSend : Except Unit Unit
  loginRecv : List (Except Unit (List Char))

/-- The socket operations `connect` can perform, in particular
`closeSock`, which would stand for a `self._sock.close()` call. -/
inductive COp where
  | openSock
  | recvBanner
  | sendLogin
  | recvLogin
  | closeSock
  deriving DecidableEq

/-- Embedding of `connect` (lines 49-78). Every failing step is caught
by the surrounding `try/except`, which logs and returns `False`
without touching the state flags and without closing the socket; the
non-`"Success"` branch also just logs and returns `False`. The success
branch sets `_connected` and `_running`. The trace records the socket
operations attempted, in order; no path contains `closeSock` because
the source contains no `close()` call inside `connect`. -/
def connect (s : ClientState) (env : ConnectEnv) :
    Bool × ClientState × List COp :=
  match env.sockConnect with
  | .error _ => (false, s, [.openSock])
  | .ok _ =>
    match env.bannerRecv with
    | .error _ => (false, s, [.openSock, .recvBanner])
    | .ok _ =>
      match env.loginSend with
      | .error _ => (false, s, [.openSock, .recvBanner, .sendLogin])
      | .ok _ =>
        match recvResponse env.loginRecv [] with
        | .error _ => (false, s, [.openSock, .recvBanner, .sendLogin, .recvLogin])
        | .ok resp =>
          if containsSub successChars resp then
            (true, ⟨true, true⟩, [.openSock, .recvBanner, .sendLogin, .recvLogin])
          else
            (false, s, [.openSock, .recvBanner, .sendLogin, .recvLogin])

/-- Outcomes of the socket calls made during `send_action`: the `send`
of the command and the chunks read by `_recv_response`. -/
structure SendEnv where
  sendOutcome : Except Unit Unit
  recvChunks : List (Except Unit (List Char))

/-- The socket operations `send_action` can perform. -/
inductive AOp where
  | sendBytes (cmd : List Char)
  | recvResp
  deriving DecidableEq

/-- The command text built by `send_action`:
`"Action: {action}\r\n"`, one `"{key}: {value}\r\n"` line per
parameter, then the closing `"\r\n"`. -/
def buildCmd (action : List Char) (params : List (List Char × List Char)) :
    List Char :=
  (params.foldl (fun cmd kv => cmd ++ kv.1 ++ colonSp ++ kv.2 ++ crlf)
    (actionKey ++ colonSp ++ action ++ crlf)) ++ crlf

/-- Embedding of `send_action` (lines 234-250): returns the response
text and the trace of socket operations performed. When
`not self._connected` the function returns `""` before any I/O; any
exception from the `send` or from `_recv_response` is caught and
converted to `""`. -/
def send_action (connected : Bool) (env : SendEnv) (action : List Char)
    (params : List (List Char × List Char)) : List Char × List AOp :=
  if !connected then ([], [])
  else
    let cmd := buildCmd action params
    match env.sendOutcome with
    | .error _ => ([], [.sendBytes cmd])
    | .ok _ =>
      match recvResponse env.recvChunks [] with
      | .error _ => ([], [.sendBytes cmd, .recvResp])
      | .ok data => (data, [.sendBytes cmd, .recvResp])

/-! ## Helper lemmas -/

theorem isPrefixOf_length_le {s t : List Char} (h : s.isPrefixOf t = true) :
    s.length ≤ t.length := by
  induction s generalizing t with
  | nil => simp
  | cons a as ih =>
    cases t with
    | nil => simp [List.isPrefixOf] at h
    | cons b bs =>
      simp only [List.isPrefixOf, Bool.and_eq_true] at h
      simpa using ih h.2

theorem isPrefixOf_append {s t : List Char} (u : List Char)
    (h : s.isPrefixOf t = true) : s.isPrefixOf (t ++ u) = true := by
  induction s generalizing t with
  | nil => simp [List.isPrefixOf]
  | cons a as ih =>
    cases t with
    | nil => simp [List.isPrefixOf] at h
    | cons b bs =>
      simp only [List.isPrefixOf, Bool.and_eq_true] at h ⊢
      exact ⟨h.1, by simpa using ih h.2⟩

theorem isPrefixOf_append_of_le {s t : List Char} (u : List Char)
    (hle : s.length ≤ t.length) : s.isPrefixOf (t ++ u) = s.isPrefixOf t := by
  induction s generalizing t with
  | nil => simp [List.isPrefixOf]
  | cons a as ih =>
    cases t with
    | nil => simp at hle
    | cons b bs =>
      simp only [List.cons_append, List.isPrefixOf]
      rw [show bs.append u = bs ++ u from rfl, ih (by simpa using hle)]

theorem drop_append_of_le {t : List Char} (u : List Char) {n : Nat}
    (h : n ≤ t.length) : (t ++ u).drop n = t.drop n ++ u := by
  induction t generalizing n with
  | nil =>
    have : n = 0 := by simpa using h
    subst this
    simp
  | cons b bs ih =>
    cases n with
    | zero => simp
    | succ m => simpa using ih (by simpa using h)

theorem splitFirst_cons (sep : List Char) (c : Char) (cs : List Char) :
    splitFirst sep (c :: cs) =
      if sep.isPrefixOf (c :: cs) then some ([], (c :: cs).drop sep.length)
      else (splitFirst sep cs).map fun pr => (c :: pr.1, pr.2) := rfl

theorem splitFirst_length {sep s pre post : List Char}
    (h : splitFirst sep s = some (pre, post)) :
    pre.length + sep.length + post.length = s.length := by
  induction s generalizing pre post with
  | nil =>
    cases sep with
    | nil =>
      simp only [splitFirst, List.isPrefixOf, if_true, Option.some.injEq,
        Prod.mk.injEq] at h
      simp [← h.1, ← h.2]
    | cons a as => simp [splitFirst, List.isPrefixOf] at h
  | cons c cs ih =>
    rw [splitFirst_cons] at h
    by_cases hp : sep.isPrefixOf (c :: cs) = true
    · rw [if_pos hp] at h
      have hle := isPrefixOf_length_le hp
      simp only [Option.some.injEq, Prod.mk.injEq] at h
      obtain ⟨h1, h2⟩ := h
      subst h1
      subst h2
      simp only [List.length_nil, List.length_drop, List.length_cons] at *
      omega
    · rw [if_neg hp] at h
      cases hps : splitFirst sep cs with
      | none => rw [hps] at h; simp at h
      | some pq =>
        rw [hps] at h
        simp only [Option.map_some', Option.some.injEq, Prod.mk.injEq] at h
        obtain ⟨h1, h2⟩ := h
        subst h1
        subst h2
        have hps' : splitFirst sep cs = some (pq.1, pq.2) := by rw [hps]
        have := ih hps'
        simp only [List.length_cons] at *
        omega

theorem splitFirst_append {sep s b pre post : List Char}
    (h : splitFirst sep s = some (pre, post)) :
    splitFirst sep (s ++ b) = some (pre, post ++ b) := by
  induction s generalizing pre post with
  | nil =>
    cases sep with
    | nil =>
      simp only [splitFirst, List.isPrefixOf, if_true, Option.some.injEq,
        Prod.mk.injEq] at h
      obtain ⟨h1, h2⟩ := h
      subst h1
      subst h2
      cases b with
      | nil => simp [splitFirst, List.isPrefixOf]
      | cons x xs => simp [splitFirst_cons, List.isPrefixOf]
    | cons a as => simp [splitFirst, List.isPrefixOf] at h
  | cons c cs ih =>
    rw [splitFirst_cons] at h
    rw [List.cons_append, splitFirst_cons, ← List.cons_append]
    by_cases hp : sep.isPrefixOf (c :: cs) = true
    · rw [if_pos hp] at h
      have hle := isPrefixOf_length_le hp
      simp only [Option.some.injEq, Prod.mk.injEq] at h
      obtain ⟨h1, h2⟩ := h
      subst h1
      subst h2
      rw [if_pos (isPrefixOf_append b hp), drop_append_of_le b hle]
    · rw [if_neg hp] at h
      cases hps : splitFirst sep cs with
      | none => rw [hps] at h; simp at h
      | some pq =>
        rw [hps] at h
        simp only [Option.map_some', Option.some.injEq, Prod.mk.injEq] at h
        obtain ⟨h1, h2⟩ := h
        subst h1
        subst h2
        have hps' : splitFirst sep cs = some (pq.1, pq.2) := by rw [hps]
        have hlen := splitFirst_length hps'
        have hp' : sep.isPrefixOf ((c :: cs) ++ b) = sep.isPrefixOf (c :: cs) :=
          isPrefixOf_append_of_le b (by simp; omega)
      -- the head cannot newly become a match: `sep` already fits inside `cs`
        rw [if_neg (by rw [hp']; exact hp), ih hps']
        rfl

theorem splitFirst_frameSep_nil : splitFirst frameSep [] = none := rfl

theorem feedAux_fuel {fuel₁ fuel₂ : Nat} {buffer : List Char}
    (h₁ : buffer.length ≤ fuel₁) (h₂ : buffer.length ≤ fuel₂) :
    feedAux fuel₁ buffer = feedAux fuel₂ buffer := by
  induction fuel₁ generalizing fuel₂ buffer with
  | zero =>
    have : buffer = [] := by simpa using List.length_eq_zero.mp (by omega)
    subst this
    cases fuel₂ with
    | zero => rfl
    | succ g => simp [feedAux, splitFirst_frameSep_nil]
  | succ f ih =>
    cases hps : splitFirst frameSep buffer with
    | none =>
      cases fuel₂ with
      | zero =>
        have : buffer = [] := by simpa using List.length_eq_zero.mp (by omega)
        subst this
        simp [feedAux, splitFirst_frameSep_nil]
      | succ g => simp [feedAux, hps]
    | some pq =>
      have hlen := splitFirst_length hps
      cases fuel₂ with
      | zero =>
        exfalso
        have : buffer = [] := by simpa using List.length_eq_zero.mp (by omega)
        subst this
        rw [splitFirst_frameSep_nil] at hps
        exact Option.noConfusion hps
      | succ g =>
        have hrest : pq.2.length ≤ f := by
          have : frameSep.length = 4 := rfl
          omega
        have hrest' : pq.2.length ≤ g := by
          have : frameSep.length = 4 := rfl
          omega
        simp only [feedAux, hps]
        rw [ih hrest hrest']

theorem feedAll_eq (buffer : List Char) :
    feedAll buffer =
      match splitFirst frameSep buffer with
      | none => ([], buffer)
      | some (msg, rest) =>
        let r := feedAll rest
        (msg :: r.1, r.2) := by
  cases hps : splitFirst frameSep buffer with
  | none =>
    cases hn : buffer.length with
    | zero => simp [feedAll, hn, feedAux]
    | succ n => simp [feedAll, hn, feedAux, hps]
  | some pq =>
    have hlen := splitFirst_length hps
    cases hn : buffer.length with
    | zero =>
      exfalso
      have : buffer = [] := List.length_eq_zero.mp hn
      subst this
      rw [splitFirst_frameSep_nil] at hps
      exact Option.noConfusion hps
    | succ n =>
      have hrest : pq.2.length ≤ n := by
        have : frameSep.length = 4 := rfl
        omega
      simp only [feedAll, hn, feedAux, hps]
      rw [feedAux_fuel hrest (Nat.le_refl _)]

theorem splitFirst_feedAll_remainder (buffer : List Char) :
    splitFirst frameSep (feedAll buffer).2 = none := by
  suffices h : ∀ n (buffer : List Char), buffer.length ≤ n →
      splitFirst frameSep (feedAll buffer).2 = none from
    h buffer.length buffer (Nat.le_refl _)
  intro n
  induction n with
  | zero =>
    intro buffer hb
    have : buffer = [] := by simpa using List.length_eq_zero.mp (by omega)
    subst this
    rw [feedAll_eq]
    simp [splitFirst_frameSep_nil]
  | succ n ih =>
    intro buffer hb
    rw [feedAll_eq]
    cases hps : splitFirst frameSep buffer with
    | none => simpa using hps
    | some pq =>
      have hlen := splitFirst_length hps
      have hfs : frameSep.length = 4 := rfl
      exact ih pq.2 (by omega)

theorem feedAll_append (a b : List Char) :
    feedAll (a ++ b) =
      ((feedAll a).1 ++ (feedAll ((feedAll a).2 ++ b)).1,
        (feedAll ((feedAll a).2 ++ b)).2) := by
  suffices h : ∀ n (a : List Char), a.length ≤ n → feedAll (a ++ b) =
      ((feedAll a).1 ++ (feedAll ((feedAll a).2 ++ b)).1,
        (feedAll ((feedAll a).2 ++ b)).2) from
    h a.length a (Nat.le_refl _)
  intro n
  induction n with
  | zero =>
    intro a ha
    have : a = [] := by simpa using List.length_eq_zero.mp (by omega)
    subst this
    have ha0 : feedAll ([] : List Char) = ([], []) := rfl
    rw [ha0]
    simp
  | succ n ih =>
    intro a ha
    cases hps : splitFirst frameSep a with
    | none =>
      have ha' : feedAll a = ([], a) := by rw [feedAll_eq, hps]
      rw [ha']
      simp
    | some pq =>
      have hlen := splitFirst_length hps
      have hfs : frameSep.length = 4 := rfl
      have ha' : feedAll a = (pq.1 :: (feedAll pq.2).1, (feedAll pq.2).2) := by
        rw [feedAll_eq, hps]
      have hab : feedAll (a ++ b) =
          (pq.1 :: (feedAll (pq.2 ++ b)).1, (feedAll (pq.2 ++ b)).2) := by
        rw [feedAll_eq, splitFirst_append hps]
      rw [hab, ha', ih pq.2 (by omega)]
      simp

theorem feedChunks_eq (chunks : List (List Char)) :
    ∀ buffer, splitFirst frameSep buffer = none →
      feedChunks chunks buffer = feedAll (buffer ++ chunks.flatten) := by
  induction chunks with
  | nil =>
    intro buffer hb
    have : feedAll buffer = ([], buffer) := by rw [feedAll_eq, hb]
    simp [feedChunks, this]
  | cons c cs ih =>
    intro buffer hb
    have hrem := splitFirst_feedAll_remainder (buffer ++ c)
    simp only [feedChunks, feed, ih _ hrem, List.flatten_cons, ← List.append_assoc]
    rw [feedAll_append (buffer ++ c) cs.flatten]

theorem find?_eq_none_of_any_false {K V : Type} [DecidableEq K]
    {d : List (K × V)} {k : K} (h : (d.any fun p => p.1 = k) = false) :
    (d.find? fun p => p.1 = k) = none := by
  induction d with
  | nil => rfl
  | cons p ps ih =>
    simp only [List.any_cons, Bool.or_eq_false_iff] at h
    simp [List.find?_cons, h.1, ih h.2]

theorem find?_map_overwrite_self {K V : Type} [DecidableEq K]
    {d : List (K × V)} {k : K} (v : V)
    (h : (d.any fun p => p.1 = k) = true) :
    ((d.map fun p => if p.1 = k then (k, v) else p).find? fun p => p.1 = k) =
      some (k, v) := by
  induction d with
  | nil => simp at h
  | cons p ps ih =>
    by_cases hp : p.1 = k
    · simp [List.map_cons, if_pos hp, List.find?_cons]
    · have h' : (ps.any fun q => q.1 = k) = true := by
        simp only [List.any_cons, Bool.or_eq_true, decide_eq_true_eq] at h
        tauto
      simp [List.map_cons, if_neg hp, List.find?_cons, hp, ih h']

theorem find?_map_overwrite_ne {K V : Type} [DecidableEq K]
    {d : List (K × V)} {k' k : K} (v : V) (hne : k' ≠ k) :
    ((d.map fun p => if p.1 = k' then (k', v) else p).find? fun p => p.1 = k) =
      (d.find? fun p => p.1 = k) := by
  induction d with
  | nil => rfl
  | cons p ps ih =>
    by_cases hp : p.1 = k'
    · have hk : p.1 ≠ k := hp ▸ hne
      simp [List.map_cons, if_pos hp, List.find?_cons, hne, hk, ih]
    · simp only [List.map_cons, if_neg hp, List.find?_cons]
      cases hc : decide (p.1 = k) with
      | true => rfl
      | false => exact ih

theorem find?_append_single {K V : Type} [DecidableEq K]
    (d : List (K × V)) (k k' : K) (v : V) :
    ((d ++ [(k', v)]).find? fun p => p.1 = k) =
      ((d.find? fun p => p.1 = k).or (if k' = k then some (k', v) else none)) := by
  induction d with
  | nil =>
    by_cases hk : k' = k
    · simp [List.find?_cons, hk, Option.none_or]
    · simp [List.find?_cons, hk, Option.none_or]
  | cons p ps ih =>
    simp only [List.cons_append, List.find?_cons]
    cases hc : decide (p.1 = k) with
    | true => rfl
    | false => exact ih

theorem dictGet?_dictSet_self {K V : Type} [DecidableEq K]
    (d : List (K × V)) (k : K) (v : V) :
    dictGet? (dictSet d k v) k = some v := by
  unfold dictSet dictGet?
  by_cases h : (d.any fun p => p.1 = k) = true
  · rw [if_pos h, find?_map_overwrite_self v h]
    rfl
  · rw [if_neg h, find?_append_single,
      find?_eq_none_of_any_false (Bool.not_eq_true _ ▸ h : _ = false),
      Option.none_or, if_pos rfl]
    rfl

theorem dictGet?_dictSet_ne {K V : Type} [DecidableEq K]
    (d : List (K × V)) {k' k : K} (v : V) (hne : k' ≠ k) :
    dictGet? (dictSet d k' v) k = dictGet? d k := by
  unfold dictSet dictGet?
  by_cases h : (d.any fun p => p.1 = k') = true
  · rw [if_pos h, find?_map_overwrite_ne v hne]
  · rw [if_neg h, find?_append_single, if_neg hne, Option.or_none]

theorem foldl_addLine_filter (lines : List (List Char)) (d : Dict) :
    lines.foldl addLine d =
      (lines.filter fun l => containsSub colonSp l).foldl addLine d := by
  induction lines generalizing d with
  | nil => rfl
  | cons line rest ih =>
    cases hs : splitFirst colonSp line with
    | none =>
      have hc : containsSub colonSp line = false := by
        simp [containsSub, hs]
      have hd : addLine d line = d := by simp [addLine, hs]
      simp [List.filter_cons, hc, List.foldl_cons, hd, ih]
    | some kv =>
      have hc : containsSub colonSp line = true := by
        simp [containsSub, hs]
      simp [List.filter_cons, hc, List.foldl_cons, ih]

theorem foldl_addLine_lastOccurrence (lines : List (List Char)) (d : Dict)
    (k : List Char) :
    dictGet? (lines.foldl addLine d) k = (lastOccurrence lines k).or (dictGet? d k) := by
  induction lines generalizing d with
  | nil => simp [lastOccurrence, Option.none_or]
  | cons line rest ih =>
    cases hs : splitFirst colonSp line with
    | none =>
      have hocc : lastOccurrence (line :: rest) k = lastOccurrence rest k := by
        simp [lastOccurrence, List.filterMap_cons, hs]
      have hd : addLine d line = d := by simp [addLine, hs]
      simp only [List.foldl_cons, hd, ih, hocc]
    | some kv =>
      have hd : addLine d line = dictSet d kv.1 kv.2 := by simp [addLine, hs]
      by_cases hk : kv.1 = k
      · have hocc : lastOccurrence (line :: rest) k =
            (lastOccurrence rest k).or (some kv.2) := by
          simp only [lastOccurrence, List.filterMap_cons, hs, List.filter_cons]
          rw [if_pos (by simp [hk])]
          simp only [List.map_cons]
          rw [← List.singleton_append, List.getLast?_append]
          rfl
        have hsor : ∀ x : Option (List Char), (some kv.2).or x = some kv.2 :=
          fun _ => rfl
        simp only [List.foldl_cons, hd, ih, hocc, hk,
          dictGet?_dictSet_self d k kv.2, Option.or_assoc, hsor]
      · have hocc : lastOccurrence (line :: rest) k = lastOccurrence rest k := by
          simp [lastOccurrence, List.filterMap_cons, hs, List.filter_cons, hk]
        simp only [List.foldl_cons, hd, ih, hocc,
          dictGet?_dictSet_ne d kv.2 hk]

theorem splitAllAux_ne_nil (sep : List Char) (fuel : Nat) (s : List Char) :
    splitAllAux sep fuel s ≠ [] := by
  cases fuel with
  | zero => simp [splitAllAux]
  | succ f =>
    cases hs : splitFirst sep s with
    | none => simp [splitAllAux, hs]
    | some pq => simp [splitAllAux, hs]

theorem dispatchLoop_eq (ls : List Listener) (e : AMIEvent) :
    dispatchLoop ls e =
      .ok ((ls.filter fun l => matchesListener l e).map fun l => l.id) := by
  induction ls with
  | nil => rfl
  | cons l ls ih =>
    by_cases h : matchesListener l e = true
    · simp only [dispatchLoop, if_pos h, List.filter_cons, h, if_pos,
        List.map_cons, ih]
      cases l.cb e <;> rfl
    · have h' : matchesListener l e = false := Bool.not_eq_true _ ▸ h
      simp [dispatchLoop, h', List.filter_cons, ih]

theorem filters_all_eq (fs : List (List Char × List Char)) (e : AMIEvent) :
    (fs.all fun kv => eventGet e kv.1 = kv.2) =
      (fs.all fun kv =>
        match dictGet? e.data kv.1 with
        | some x => decide (x = kv.2)
        | none => decide (kv.2 = [])) := by
  induction fs with
  | nil => rfl
  | cons kv fs ih =>
    simp only [List.all_cons, ih]
    congr 1
    cases h : dictGet? e.data kv.1 with
    | none =>
      simp only [eventGet, h, Option.getD_none]
      exact decide_eq_decide.mpr ⟨fun h' => h'.symm, fun h' => h'.symm⟩
    | some x => simp [eventGet, h]

theorem matchesListener_eq_claimMatches (l : Listener) (e : AMIEvent) :
    matchesListener l e = claimMatches l e := by
  unfold matchesListener claimMatches
  by_cases hw : l.whitelist = []
  · simp only [hw, ne_eq, not_true_eq_false, decide_False, Bool.false_and,
      Bool.false_eq_true, if_false, decide_True, Bool.true_or, Bool.true_and]
    exact filters_all_eq l.filters e
  · cases ha : l.whitelist.any fun n => n = e.name with
    | true =>
      simp only [ne_eq, hw, not_false_eq_true, decide_True, ha, Bool.not_true,
        Bool.and_false, Bool.false_eq_true, if_false, decide_False,
        Bool.false_or, Bool.true_and]
      exact filters_all_eq l.filters e
    | false =>
      simp [ne_eq, hw, ha]

/-! ## Claims -/

/-- C1: for every action name and parameter list, `send_action` on a
disconnected client returns the empty string with no socket I/O at all; and
when connected, a raising `send` or a raising response read also produces the
empty string (the exception is caught), never an exception to the caller. -/
theorem C1_send_action_never_throws (action : List Char)
    (params : List (List Char × List Char)) (env : SendEnv) :
    send_action false env action params = ([], []) ∧
    (env.sendOutcome = .error () →
      send_action true env action params =
        ([], [.sendBytes (buildCmd action params)])) ∧
    (recvResponse env.recvChunks [] = .error () →
      (send_action true env action params).1 = []) := by
  refine ⟨rfl, fun h => ?_, fun h => ?_⟩
  · simp [send_action, h]
  · simp only [send_action, Bool.not_true, Bool.false_eq_true, if_false]
    cases hs : env.sendOutcome with
    | error u => rfl
    | ok u => simp [h]

/-- Witness for C1: a `Ping` action against an environment whose `send`
raises (and whose response read, were it reached, would also raise). -/
theorem C1_witness :
    send_action false ⟨.error (), []⟩ ['P', 'i', 'n', 'g'] [] = ([], []) ∧
    send_action true ⟨.error (), []⟩ ['P', 'i', 'n', 'g'] [] =
      ([], [.sendBytes (buildCmd ['P', 'i', 'n', 'g'] [])]) ∧
    (send_action true ⟨.error (), []⟩ ['P', 'i', 'n', 'g'] []).1 = [] := by
  obtain ⟨h1, h2, h3⟩ :=
    C1_send_action_never_throws ['P', 'i', 'n', 'g'] [] ⟨.error (), []⟩
  exact ⟨h1, h2 rfl, h3 rfl⟩

/-- C2: when the socket steps preceding the login reply succeed and the reply
text is `resp`, `connect` returns `true` and sets the connected flag exactly
when `"Success"` occurs in `resp` (case-sensitively); a reply without that
substring makes `connect` return `false`. -/
theorem C2_connect_success_iff (s : ClientState) (env : ConnectEnv)
    (banner resp : List Char) (hdis : s.connected = false)
    (h1 : env.sockConnect = .ok ()) (h2 : env.bannerRecv = .ok banner)
    (h3 : env.loginSend = .ok ())
    (h4 : recvResponse env.loginRecv [] = .ok resp) :
    (connect s env).1 = containsSub successChars resp ∧
    (connect s env).2.1.connected = containsSub successChars resp := by
  simp only [connect, h1, h2, h3, h4]
  cases hc : containsSub successChars resp <;> simp [hdis]

/-- Witness for C2: the spec scenario — server replies
`"Response: Success\r\n\r\n"`, `connect` returns true, state Connected. -/
theorem C2_witness :
    (connect ⟨false, false⟩
      ⟨.ok (), .ok ['b'], .ok (),
        [.ok ['R', 'e', 's', 'p', 'o', 'n', 's', 'e', ':', ' ', 'S', 'u', 'c',
          'c', 'e', 's', 's', '\r', '\n', '\r', '\n']]⟩).1 = true ∧
    (connect ⟨false, false⟩
      ⟨.ok (), .ok ['b'], .ok (),
        [.ok ['R', 'e', 's', 'p', 'o', 'n', 's', 'e', ':', ' ', 'S', 'u', 'c',
          'c', 'e', 's', 's', '\r', '\n', '\r', '\n']]⟩).2.1.connected = true := by
  obtain ⟨ha, hb⟩ := C2_connect_success_iff ⟨false, false⟩
    ⟨.ok (), .ok ['b'], .ok (),
      [.ok ['R', 'e', 's', 'p', 'o', 'n', 's', 'e', ':', ' ', 'S', 'u', 'c',
        'c', 'e', 's', 's', '\r', '\n', '\r', '\n']]⟩
    ['b']
    ['R', 'e', 's', 'p', 'o', 'n', 's', 'e', ':', ' ', 'S', 'u', 'c', 'c', 'e',
      's', 's', '\r', '\n', '\r', '\n']
    rfl rfl rfl rfl rfl
  exact ⟨ha.trans (by decide), hb.trans (by decide)⟩

/-- C3 counterexample: after a complete conversation whose login reply is
`"Response: Error\r\n\r\n"`, `connect` returns `false` but performs no
`close()` on the socket — the claim that every `connect` failure closes the
socket is false on this input (there is no `close()` call in `connect`). -/
theorem C3_counterexample :
    (connect ⟨false, false⟩
      ⟨.ok (), .ok ['b'], .ok (),
        [.ok ['R', 'e', 's', 'p', 'o', 'n', 's', 'e', ':', ' ', 'E', 'r', 'r',
          'o', 'r', '\r', '\n', '\r', '\n']]⟩).1 = false ∧
    COp.closeSock ∉ (connect ⟨false, false⟩
      ⟨.ok (), .ok ['b'], .ok (),
        [.ok ['R', 'e', 's', 'p', 'o', 'n', 's', 'e', ':', ' ', 'E', 'r', 'r',
          'o', 'r', '\r', '\n', '\r', '\n']]⟩).2.2 := by decide

/-- C3 (amended): on every failure during `connect` — socket open failure,
banner read failure, login send failure, failing or non-success login reply —
`connect` returns `false` and leaves the connected flag `false` (the client
stays Disconnected, given it was disconnected before the call), but it does
not close the socket. -/
theorem C3_connect_failure_state (s : ClientState) (env : ConnectEnv)
    (hdis : s.connected = false) (hfail : (connect s env).1 = false) :
    (connect s env).2.1.connected = false ∧
    COp.closeSock ∉ (connect s env).2.2 := by
  obtain ⟨sc, br, lsend, lrecv⟩ := env
  cases sc with
  | error u => simp [connect, hdis]
  | ok u =>
    cases br with
    | error u2 => simp [connect, hdis]
    | ok banner =>
      cases lsend with
      | error u3 => simp [connect, hdis]
      | ok u4 =>
        cases hr : recvResponse lrecv [] with
        | error u5 => simp [connect, hr, hdis]
        | ok resp =>
          cases hc : containsSub successChars resp with
          | false => simp [connect, hr, hc, hdis]
          | true =>
            exfalso
            simp [connect, hr, hc] at hfail

/-- Witness for C3 (amended), at the failed-login environment of the
counterexample input. -/
theorem C3_witness :
    (connect ⟨false, false⟩
      ⟨.ok (), .ok ['b'], .ok (),
        [.ok ['R', 'e', 's', 'p', 'o', 'n', 's', 'e', ':', ' ', 'E', 'r', 'r',
          'o', 'r', '\r', '\n', '\r', '\n']]⟩).2.1.connected = false ∧
    COp.closeSock ∉ (connect ⟨false, false⟩
      ⟨.ok (), .ok ['b'], .ok (),
        [.ok ['R', 'e', 's', 'p', 'o', 'n', 's', 'e', ':', ' ', 'E', 'r', 'r',
          'o', 'r', '\r', '\n', '\r', '\n']]⟩).2.2 :=
  C3_connect_failure_state ⟨false, false⟩
    ⟨.ok (), .ok ['b'], .ok (),
      [.ok ['R', 'e', 's', 'p', 'o', 'n', 's', 'e', ':', ' ', 'E', 'r', 'r',
        'o', 'r', '\r', '\n', '\r', '\n']]⟩
    rfl (by decide)

/-- C4 counterexample: the frame text `"Response: Success"` decodes to a
record without an `"Event"` key; `_process_message` does nothing with it
(`.dropped`), while the routing the claim describes would deliver it to the
caller awaiting in the action channel — so the record IS discarded by the
reader loop, and the claim is false at this input. -/
theorem C4_counterexample :
    routeMessage ['R', 'e', 's', 'p', 'o', 'n', 's', 'e', ':', ' ', 'S', 'u',
      'c', 'c', 'e', 's', 's'] = ReaderAction.dropped ∧
    specRouteMessage ['R', 'e', 's', 'p', 'o', 'n', 's', 'e', ':', ' ', 'S',
      'u', 'c', 'c', 'e', 's', 's'] =
      ReaderAction.delivered
        [(['R', 'e', 's', 'p', 'o', 'n', 's', 'e'],
          ['S', 'u', 'c', 'c', 'e', 's', 's'])] ∧
    routeMessage ['R', 'e', 's', 'p', 'o', 'n', 's', 'e', ':', ' ', 'S', 'u',
      'c', 'c', 'e', 's', 's'] ≠
      specRouteMessage ['R', 'e', 's', 'p', 'o', 'n', 's', 'e', ':', ' ', 'S',
        'u', 'c', 'c', 'e', 's', 's'] := by decide

/-- C4 (amended): the reader loop routes a decoded record by the presence of
the `"Event"` key — a record with an `"Event"` key is dispatched to the event
listeners, and every other record is discarded: it is never delivered
anywhere (action responses are read from the socket by `send_action` itself,
not routed through the reader loop). -/
theorem C4_reader_routing (msg : List Char) :
    (∀ n, dictGet? (parseRecord msg) eventKey = some n →
      routeMessage msg = .dispatched ⟨n, parseRecord msg⟩) ∧
    (dictGet? (parseRecord msg) eventKey = none →
      routeMessage msg = .dropped) ∧
    ∀ d, routeMessage msg ≠ .delivered d := by
  have hne : (splitLines (pyStrip msg)).isEmpty = false :=
    List.isEmpty_eq_false.mpr (splitAllAux_ne_nil _ _ _)
  have hpr : buildRecord (splitLines (pyStrip msg)) = parseRecord msg := rfl
  refine ⟨fun n h => ?_, fun h => ?_, fun d => ?_⟩
  · simp only [routeMessage, hne, Bool.false_eq_true, if_false, hpr, h]
  · simp only [routeMessage, hne, Bool.false_eq_true, if_false, hpr, h]
  · simp only [routeMessage, hne, Bool.false_eq_true, if_false, hpr]
    cases hg : dictGet? (parseRecord msg) eventKey <;> simp

/-- Witness for C4 (amended): `"Event: Foo"` is dispatched; `"Resp: x"` is
dropped. -/
theorem C4_witness :
    routeMessage ['E', 'v', 'e', 'n', 't', ':', ' ', 'F', 'o', 'o'] =
      ReaderAction.dispatched ⟨['F', 'o', 'o'],
        parseRecord ['E', 'v', 'e', 'n', 't', ':', ' ', 'F', 'o', 'o']⟩ ∧
    routeMessage ['R', 'e', 's', 'p', ':', ' ', 'x'] = ReaderAction.dropped := by
  constructor
  · exact (C4_reader_routing _).1 ['F', 'o', 'o'] (by decide)
  · exact (C4_reader_routing _).2.1 (by decide)

/-- C5: dispatch invokes exactly the registrations satisfying the claim's
matching predicate — whitelist empty or containing the event name, and every
filter key's value in the event equal to the required value, a missing field
never matching a non-empty required value — and that predicate coincides
pointwise with the code's match test. -/
theorem C5_dispatch_match_iff (ls : List Listener) (e : AMIEvent) :
    dispatchLoop ls e =
      .ok ((ls.filter fun l => claimMatches l e).map fun l => l.id) ∧
    ∀ l : Listener, matchesListener l e = claimMatches l e := by
  refine ⟨?_, fun l => matchesListener_eq_claimMatches l e⟩
  rw [dispatchLoop_eq,
    List.filter_congr fun l _ => matchesListener_eq_claimMatches l e]

/-- C6: with a raising listener placed anywhere in the registration list,
dispatch still returns normally (the exception is caught at the dispatch
site) and the invocation trace is exactly all matching listeners in order —
in particular every matching listener after the raising one is still
invoked. -/
theorem C6_callback_error_contained (ls₁ ls₂ : List Listener) (l : Listener)
    (e : AMIEvent) (hraise : l.cb e = .error ()) :
    dispatchLoop (ls₁ ++ l :: ls₂) e =
      .ok (((ls₁ ++ l :: ls₂).filter fun x => matchesListener x e).map
        fun x => x.id) :=
  dispatchLoop_eq _ e

/-- Witness for C6: listener 0 raises on a matching event, listener 1 is
still invoked afterwards and dispatch returns normally. -/
theorem C6_witness :
    dispatchLoop
      [⟨0, fun _ => .error (), [], []⟩, ⟨1, fun _ => .ok (), [], []⟩]
      ⟨['F', 'o', 'o'], [(['E', 'v', 'e', 'n', 't'], ['F', 'o', 'o'])]⟩ =
      .ok [0, 1] := by
  have h := C6_callback_error_contained []
    [⟨1, fun _ => .ok (), [], []⟩] ⟨0, fun _ => .error (), [], []⟩
    ⟨['F', 'o', 'o'], [(['E', 'v', 'e', 'n', 't'], ['F', 'o', 'o'])]⟩ rfl
  exact h.trans rfl

/-- C7: frame-text parsing is a total function that ignores every line
lacking the `": "` separator — the decoded record equals the record built
from the well-formed lines alone. -/
theorem C7_parse_drops_malformed (msg : List Char) :
    parseRecord msg =
      buildRecord
        ((splitLines (pyStrip msg)).filter fun l => containsSub colonSp l) :=
  foldl_addLine_filter (splitLines (pyStrip msg)) []

/-- C8: the decoded record maps every key to the value of its last
well-formed occurrence among the frame's lines (last-write-wins); in
particular `"A: 1\r\nA: 2\r\n\r\n"` decodes to the mapping `{A: "2"}`. -/
theorem C8_last_write_wins :
    (∀ (lines : List (List Char)) (k : List Char),
      dictGet? (buildRecord lines) k = lastOccurrence lines k) ∧
    parseRecord ['A', ':', ' ', '1', '\r', '\n', 'A', ':', ' ', '2', '\r',
      '\n', '\r', '\n'] = [(['A'], ['2'])] := by
  refine ⟨fun lines k => ?_, by decide⟩
  have h0 : dictGet? ([] : Dict) k = none := rfl
  show dictGet? (lines.foldl addLine []) k = lastOccurrence lines k
  rw [foldl_addLine_lastOccurrence, h0, Option.or_none]

/-- C9: feeding a byte stream through the incremental frame decoder in any
partition into chunks yields the same frames (and the same remainder) as
feeding the whole stream as a single chunk. -/
theorem C9_chunk_independence (chunks : List (List Char)) :
    feedChunks chunks [] = feedChunks [chunks.flatten] [] := by
  rw [feedChunks_eq chunks [] rfl, feedChunks_eq [chunks.flatten] [] rfl]
  simp

/-- C10: a filter entry requiring the empty string is satisfied by an event
in which that field is absent (the lookup defaults to `""`), so such a
registration's callback is invoked whenever the whitelist matches and the
remaining filter entries hold — an empty-string filter value does not
require the field to be present. -/
theorem C10_empty_filter_absent_field (l : Listener) (e : AMIEvent)
    (k : List Char) (hf : (k, ([] : List Char)) ∈ l.filters)
    (habs : dictGet? e.data k = none)
    (hwl : l.whitelist = [] ∨ e.name ∈ l.whitelist)
    (hrest : ∀ kv ∈ l.filters, kv ≠ (k, []) → eventGet e kv.1 = kv.2) :
    eventGet e k = [] ∧ dispatchLoop [l] e = .ok [l.id] := by
  have hget : eventGet e k = [] := by simp [eventGet, habs]
  refine ⟨hget, ?_⟩
  have hcond : (decide (l.whitelist ≠ []) &&
      !(l.whitelist.any fun n => n = e.name)) = false := by
    rcases hwl with hw | hw
    · simp [hw]
    · have : (l.whitelist.any fun n => n = e.name) = true :=
        List.any_eq_true.mpr ⟨e.name, hw, by simp⟩
      simp [this]
  have hall : (l.filters.all fun kv => eventGet e kv.1 = kv.2) = true := by
    rw [List.all_eq_true]
    intro kv hkv
    by_cases hkv2 : kv = (k, [])
    · subst hkv2
      simpa using hget
    · simpa using hrest kv hkv hkv2
  have hmatch : matchesListener l e = true := by
    unfold matchesListener
    rw [hcond]
    simpa using hall
  simp only [dispatchLoop, hmatch, if_pos]
  cases l.cb e <;> rfl

/-- Witness for C10: a listener filtered on `{X: ""}` fires for an event
without an `X` field. -/
theorem C10_witness :
    eventGet ⟨['F', 'o', 'o'], [(['E', 'v', 'e', 'n', 't'], ['F', 'o', 'o'])]⟩
      ['X'] = [] ∧
    dispatchLoop [⟨7, fun _ => .ok (), [], [(['X'], [])]⟩]
      ⟨['F', 'o', 'o'], [(['E', 'v', 'e', 'n', 't'], ['F', 'o', 'o'])]⟩ =
      .ok [7] :=
  C10_empty_filter_absent_field ⟨7, fun _ => .ok (), [], [(['X'], [])]⟩
    ⟨['F', 'o', 'o'], [(['E', 'v', 'e', 'n', 't'], ['F', 'o', 'o'])]⟩ ['X']
    (by simp) (by decide) (Or.inl rfl)
    (by intro kv hkv hne; exfalso; simp at hkv; exact hne hkv)

end AMI
